import Mathlib

/-!
Shallow embedding of the OSM XML streaming reader (`src/main.rs`).

Modelling conventions:
* The external XML tokenizer is out of scope; its events are modelled as a
  `List XmlEvent`, with end of list standing for `Event::Eof`.  Attribute
  key/value pairs arrive already unescaped and UTF-8 decoded, per the
  tokenizer contract in the design document.
* Rust `HashMap` values built by repeated `insert` are modelled as
  association lists with overwrite-on-insert (`hmInsert`) and key lookup
  (`hmGet`); only lookup is observable, so this is faithful.
* Machine integers are `Int`/`Nat` with explicit range checks mirroring
  Rust `from_str` overflow behaviour.  `f32` coordinate values are
  modelled as `Rat` via the finite decimal/exponent grammar; f32 rounding
  and the `inf`/`NaN` spellings are not modelled (no verified property
  inspects a float value, only parse success and field presence).
* Rust `panic!` is modelled as an explicit `panicked` outcome constructor;
  fallible code returns `Except ReadError`.
* The unused reader fields `elt` and `curr_elt` (dead code in the source:
  assigned in `new`, never read) are omitted.
-/

/-- The recoverable error type of the reader (`struct ReadError`). -/
structure ReadError where
  msg : String
deriving DecidableEq

/-- Stand-in for `format!("Parsing error {:?}", e)` messages produced by the
`From<ParseIntError> / ParseFloatError / ParseBoolError` conversions; the
Rust message embeds the foreign error's debug text, which we abbreviate to a
fixed string since no claim inspects it. -/
def parseErr : ReadError := ⟨"Parsing error"⟩

/-- Value of a nonempty all-digit character list, `none` otherwise
(helper for the Rust `from_str` integer grammars). -/
def digitsVal : List Char → Nat → Option Nat
  | [], acc => some acc
  | c :: t, acc => if c.isDigit then digitsVal t (acc * 10 + (c.toNat - 48)) else none

/-- Parse a nonempty digit string to a natural number. -/
def parseNatDigits (cs : List Char) : Option Nat :=
  match cs with
  | [] => none
  | _ => digitsVal cs 0

/-- Rust `u64::from_str`: optional leading plus, digits, range check. -/
def parseU64 (s : String) : Option Nat :=
  let cs := match s.data with
    | '+' :: t => t
    | cs => cs
  (parseNatDigits cs).bind (fun n => if n < 2 ^ 64 then some n else none)

/-- Rust `u32::from_str`: optional leading plus, digits, range check. -/
def parseU32 (s : String) : Option Nat :=
  let cs := match s.data with
    | '+' :: t => t
    | cs => cs
  (parseNatDigits cs).bind (fun n => if n < 2 ^ 32 then some n else none)

/-- Rust `i64::from_str`: optional sign, digits, two's-complement range check. -/
def parseI64 (s : String) : Option Int :=
  match s.data with
  | '-' :: t => (parseNatDigits t).bind
      (fun n => if n ≤ 2 ^ 63 then some (-(n : Int)) else none)
  | '+' :: t => (parseNatDigits t).bind
      (fun n => if n < 2 ^ 63 then some ((n : Int)) else none)
  | cs => (parseNatDigits cs).bind
      (fun n => if n < 2 ^ 63 then some ((n : Int)) else none)

/-- Rust `bool::from_str`: exactly `true` or `false`. -/
def parseBool (s : String) : Option Bool :=
  if s = "true" then some true else if s = "false" then some false else none

/-- Longest digit prefix of a character list, with the remainder. -/
def takeDigits : List Char → List Char × List Char
  | [] => ([], [])
  | c :: t =>
    if c.isDigit then
      let (ds, rest) := takeDigits t
      (c :: ds, rest)
    else ([], c :: t)

/-- Mantissa grammar of Rust float parsing: `digits [. digits?] | . digits`,
as an exact rational. -/
def parseMantissa (cs : List Char) : Option Rat :=
  let (ip, rest) := takeDigits cs
  match rest with
  | [] => if ip = [] then none else (digitsVal ip 0).map (fun n => (n : Rat))
  | '.' :: rest2 =>
    let (fp, rest3) := takeDigits rest2
    if rest3 = [] then
      if ip = [] ∧ fp = [] then none
      else
        (digitsVal ip 0).bind (fun i =>
          (digitsVal fp 0).map (fun f =>
            (i : Rat) + (f : Rat) / ((10 : Rat) ^ fp.length)))
    else none
  | _ => none

/-- Split a character list at the first `e`/`E`, if any. -/
def splitExp : List Char → List Char × Option (List Char)
  | [] => ([], none)
  | c :: t =>
    if c = 'e' ∨ c = 'E' then ([], some t)
    else
      let (pre, ex) := splitExp t
      (c :: pre, ex)

/-- Exponent grammar: optional sign then nonempty digits. -/
def parseExp (cs : List Char) : Option Int :=
  match cs with
  | '-' :: t => (parseNatDigits t).map (fun n => -(n : Int))
  | '+' :: t => (parseNatDigits t).map (fun n => (n : Int))
  | _ => (parseNatDigits cs).map (fun n => (n : Int))

/-- Rust `f32::from_str` on finite decimal literals, modelled exactly over
`Rat`: optional sign, mantissa, optional exponent.  The `inf`/`infinity`/
`nan` spellings and f32 rounding/overflow are not modelled. -/
def parseF32 (s : String) : Option Rat :=
  let (sgnNeg, cs) : Bool × List Char :=
    match s.data with
    | '-' :: t => (true, t)
    | '+' :: t => (false, t)
    | cs => (false, cs)
  let (mcs, ecs) := splitExp cs
  (parseMantissa mcs).bind (fun m =>
    let app : Option Rat :=
      match ecs with
      | none => some m
      | some e => (parseExp e).map (fun x => m * (10 : Rat) ^ x)
    app.map (fun v => if sgnNeg then -v else v))

/-- Association list modelling a Rust `HashMap` built by `insert`
(overwrite on duplicate key). -/
def hmInsert : List (String × String) → String → String → List (String × String)
  | [], k, v => [(k, v)]
  | (k1, v1) :: t, k, v =>
    if k1 = k then (k, v) :: t else (k1, v1) :: hmInsert t k v

/-- `HashMap::get` on the association-list model. -/
def hmGet : List (String × String) → String → Option String
  | [], _ => none
  | (k1, v1) :: t, k => if k1 = k then some v1 else hmGet t k

/-- Raw key→value attribute mapping (`type ParsedAttrs`). -/
def ParsedAttrs := List (String × String)
deriving DecidableEq

/-- An XML element as delivered by the tokenizer: byte-name plus ordered
attribute pairs (`quick_xml::events::BytesStart`, already unescaped). -/
structure BytesStart where
  name : String
  attrs : List (String × String)
deriving DecidableEq

/-- `OsmXmlReader::_attrs_hashmap`: fold the ordered attribute pairs into a
`HashMap` (later duplicate attribute keys overwrite earlier ones). -/
def attrsHashmap (elt : BytesStart) : ParsedAttrs :=
  elt.attrs.foldl (fun hm kv => hmInsert hm kv.1 kv.2) []

/-- Tag mapping of an object (`type Tags = HashMap<Arc<str>, Arc<str>>`). -/
def Tags := List (String × String)
deriving DecidableEq

/-- Common optional metadata of every OSM element (`struct OsmElementAttrs`). -/
structure OsmElementAttrs where
  id : Option Int
  timestamp : Option String
  uid : Option Int
  user : Option String
  visible : Option Bool
  deleted : Option Bool
  version : Option Nat
  changeset : Option Nat
deriving DecidableEq

/-- `OsmElementAttrs::new`: all fields absent. -/
def OsmElementAttrs.new : OsmElementAttrs :=
  ⟨none, none, none, none, none, none, none, none⟩

/-- `attrs.get(k).map(|v| v.parse()).transpose()?`: absence gives `none`,
a present value must parse or the whole conversion errors. -/
def optParse {α : Type} (o : Option String) (p : String → Option α) :
    Except ReadError (Option α) :=
  match o with
  | none => .ok none
  | some s =>
    match p s with
    | some v => .ok (some v)
    | none => .error parseErr

/-- `impl TryFrom<&ParsedAttrs> for OsmElementAttrs`, fields evaluated in the
source's written order (changeset, deleted, id, timestamp, uid, user,
version, visible). -/
def osmElementAttrsTryFrom (ah : ParsedAttrs) : Except ReadError OsmElementAttrs :=
  match optParse (hmGet ah "changeset") parseU64 with
  | .error e => .error e
  | .ok changeset =>
    match optParse (hmGet ah "deleted") parseBool with
    | .error e => .error e
    | .ok deleted =>
      match optParse (hmGet ah "id") parseI64 with
      | .error e => .error e
      | .ok id =>
        match optParse (hmGet ah "uid") parseI64 with
        | .error e => .error e
        | .ok uid =>
          match optParse (hmGet ah "version") parseU32 with
          | .error e => .error e
          | .ok version =>
            match optParse (hmGet ah "visible") parseBool with
            | .error e => .error e
            | .ok visible =>
              .ok ⟨id, hmGet ah "timestamp", uid, hmGet ah "user",
                visible, deleted, version, changeset⟩

/-- Member target kind (`enum ObjType`). -/
inductive ObjType where
  | node
  | way
  | relation
deriving DecidableEq

/-- `impl TryFrom<Arc<str>> for ObjType`. -/
def objTypeTryFrom (s : String) : Except ReadError ObjType :=
  if s = "node" then .ok .node
  else if s = "way" then .ok .way
  else if s = "relation" then .ok .relation
  else .error ⟨"object type is not node/way/relation"⟩

/-- A relation member (`struct Member`). -/
structure Member where
  mtype : ObjType
  mref : Int
  mrole : String
deriving DecidableEq

/-- `struct Node` (lat/lon as exact rationals standing for f32). -/
structure Node where
  attrs : OsmElementAttrs
  lat : Rat
  lon : Rat
  tags : Tags
deriving DecidableEq

/-- `struct Way`. -/
structure Way where
  attrs : OsmElementAttrs
  nodes : List Int
  tags : Tags
deriving DecidableEq

/-- `struct Relation`. -/
structure Relation where
  attrs : OsmElementAttrs
  tags : Tags
  members : List Member
deriving DecidableEq

/-- `enum OsmObj`. -/
inductive OsmObj where
  | node (n : Node)
  | way (w : Way)
  | relation (r : Relation)
deriving DecidableEq

/-- `OsmObj::tags_insert`: insert into whichever variant's tag map. -/
def OsmObj.tags_insert : OsmObj → String → String → OsmObj
  | .node n, k, v => .node { n with tags := hmInsert n.tags k v }
  | .way w, k, v => .way { w with tags := hmInsert w.tags k v }
  | .relation r, k, v => .relation { r with tags := hmInsert r.tags k v }

/-- The tag map of an object, whichever variant. -/
def OsmObj.tags : OsmObj → Tags
  | .node n => n.tags
  | .way w => w.tags
  | .relation r => r.tags

/-- The kind of an object. -/
def OsmObj.kind : OsmObj → ObjType
  | .node _ => .node
  | .way _ => .way
  | .relation _ => .relation

/-- The element name opening an object of a given kind. -/
def kindName : ObjType → String
  | .node => "node"
  | .way => "way"
  | .relation => "relation"

/-- Parsing of one `<member>` child in the relation arm of
`_process_elements`: `type` is required and converted via `ObjType`,
`ref` is required and parsed as i64, `role` is required. -/
def memberParse (hm : ParsedAttrs) : Except ReadError Member :=
  match hmGet hm "type" with
  | none => .error ⟨"member element has no \x27type\x27 attribute"⟩
  | some ts =>
    match objTypeTryFrom ts with
    | .error e => .error e
    | .ok mtype =>
      match hmGet hm "ref" with
      | none => .error ⟨"member element has no \x27ref\x27 attribute"⟩
      | some rs =>
        match parseI64 rs with
        | none => .error parseErr
        | some mref =>
          match hmGet hm "role" with
          | none => .error ⟨"member element has no \x27role\x27 attribute"⟩
          | some role => .ok ⟨mtype, mref, role⟩

/-- One step of the child loop of `_process_elements`: dispatch a buffered
child element against the object built so far. -/
def processChild (res : OsmObj) (elt : BytesStart) : Except ReadError OsmObj :=
  if elt.name = "tag" then
    let hm := attrsHashmap elt
    match hmGet hm "k", hmGet hm "v" with
    | some k1, some v1 => .ok (res.tags_insert k1 v1)
    | _, _ => .ok res
  else if elt.name = "nd" then
    match res with
    | .way w =>
      let hm := attrsHashmap elt
      match hmGet hm "ref" with
      | none => .ok res
      | some s =>
        match parseI64 s with
        | some n => .ok (.way { w with nodes := w.nodes ++ [n] })
        | none => .error parseErr
    | _ => .ok res
  else if elt.name = "member" then
    match res with
    | .relation r =>
      match memberParse (attrsHashmap elt) with
      | .error e => .error e
      | .ok m => .ok (.relation { r with members := r.members ++ [m] })
    | _ => .ok res
  else .ok res

/-- The child loop of `_process_elements` over the buffered children, with
the Rust early-`?` error return modelled by sticky errors. -/
def processChildren : Except ReadError OsmObj → List BytesStart → Except ReadError OsmObj
  | .error e, _ => .error e
  | .ok o, [] => .ok o
  | .ok o, c :: t => processChildren (processChild o c) t

/-- Construction of the initial object from the opening element in
`_process_elements`: `none` encodes the `panic!("wrong tag on pos 1 ...")`
arm for a non-object head. -/
def initObj (name : String) (ah : ParsedAttrs) (osmAttrs : OsmElementAttrs) :
    Option (Except ReadError OsmObj) :=
  if name = "node" then
    some (
      match hmGet ah "lon" with
      | none => .error ⟨"node has no longitude"⟩
      | some lons =>
        match parseF32 lons with
        | none => .error parseErr
        | some lon =>
          match hmGet ah "lat" with
          | none => .error ⟨"node has no latitude"⟩
          | some lats =>
            match parseF32 lats with
            | none => .error parseErr
            | some lat => .ok (.node ⟨osmAttrs, lat, lon, []⟩))
  else if name = "way" then some (.ok (.way ⟨osmAttrs, [], []⟩))
  else if name = "relation" then some (.ok (.relation ⟨osmAttrs, [], []⟩))
  else none

instance {ε α : Type} [DecidableEq ε] [DecidableEq α] : DecidableEq (Except ε α) := fun a b =>
  match a, b with
  | .ok x, .ok y =>
    if h : x = y then .isTrue (by rw [h]) else .isFalse (fun hh => h (Except.ok.inj hh))
  | .ok _, .error _ => .isFalse (fun hh => Except.noConfusion hh)
  | .error _, .ok _ => .isFalse (fun hh => Except.noConfusion hh)
  | .error x, .error y =>
    if h : x = y then .isTrue (by rw [h]) else .isFalse (fun hh => h (Except.error.inj hh))

/-- Outcome of `_process_elements`: either a process abort or a
`Result<Option<OsmObj>, ReadError>` value. -/
inductive PRes where
  | panicked (msg : String)
  | res (r : Except ReadError (Option OsmObj))
deriving DecidableEq

/-- `OsmXmlReader::_process_elements`: empty buffer yields `Ok(None)`;
otherwise type the head's attributes, build the initial object by kind
(aborting on a non-object head name, after attribute typing as in the
source), then run the child loop. -/
def processElements (elts : List BytesStart) : PRes :=
  match elts with
  | [] => .res (.ok none)
  | elt :: rest =>
    let ah := attrsHashmap elt
    match osmElementAttrsTryFrom ah with
    | .error e => .res (.error e)
    | .ok osmAttrs =>
      match initObj elt.name ah osmAttrs with
      | none => .panicked ("wrong tag on pos 1 in tags vector: " ++ elt.name)
      | some ini =>
        match processChildren ini rest with
        | .error e => .res (.error e)
        | .ok o => .res (.ok (some o))

example : hmGet (attrsHashmap ⟨"tag", [("k", "a"), ("v", "b")]⟩) "k" = some "a" := by decide
example : parseI64 "-12" = some (-12) := by decide
example : (parseF32 "1.5").isSome = true := by decide
example : parseF32 "2" = some 2 := by decide
example : parseF32 "" = none := by decide
example : parseBool "tru" = none := by decide

/-- A tokenizer event (`quick_xml::events::Event`); `Eof` is the end of the
event list, `other` stands for the text/comment/declaration events that
fall into the `_ => {}` arm of the `_next` loop. -/
inductive XmlEvent where
  | start (e : BytesStart)
  | empty (e : BytesStart)
  | ending (name : String)
  | other
deriving DecidableEq

/-- The three skip flags of `OsmXmlReader` (the filter controller). -/
structure Flags where
  skip_nodes : Bool
  skip_ways : Bool
  skip_relations : Bool
deriving DecidableEq

/-- The flag state set by `OsmXmlReader::new`. -/
def Flags.new : Flags := ⟨false, false, false⟩

/-- The `do_skip = match nm {...}` assignment of `_next`. -/
def skipFor (f : Flags) (nm : String) : Bool :=
  if nm = "node" then f.skip_nodes
  else if nm = "way" then f.skip_ways
  else if nm = "relation" then f.skip_relations
  else false

/-- Is the name one of the three top-level object elements. -/
def objName (nm : String) : Bool :=
  nm = "node" ∨ nm = "way" ∨ nm = "relation"

/-- Is the name one of the three child elements checked by the
mis-nesting guard. -/
def childName (nm : String) : Bool :=
  nm = "nd" ∨ nm = "tag" ∨ nm = "member"

/-- Outcome of the event loop of `_next`.  `emit` carries the buffered
element group handed to `_process_elements` and the unread events;
`eofLeft` records (as ghost observability) the loop state and buffer that
the source simply drops when returning `Ok(None)` at `Eof`. -/
inductive LoopOut where
  | panicked (msg : String)
  | eofLeft (objStarted doSkip : Bool) (leftover : List BytesStart)
  | emit (group : List BytesStart) (rest : List XmlEvent)
deriving DecidableEq

/-- The event loop of `OsmXmlReader::_next`, with the mutable locals
`obj_started`, `do_skip` and `elements` as explicit arguments. -/
def nextLoop (f : Flags) : Bool → Bool → List BytesStart → List XmlEvent → LoopOut
  | started, ds, elts, [] => .eofLeft started ds elts
  | false, _, elts, .start e :: rest =>
    if childName e.name then .panicked "nd/tag/member outside of node/way/relation"
    else if objName e.name then
      nextLoop f true (skipFor f e.name)
        (if skipFor f e.name then elts else elts ++ [e]) rest
    else nextLoop f false (skipFor f e.name) elts rest
  | false, _, elts, .empty e :: rest =>
    if childName e.name then .panicked "nd/tag/member outside of node/way/relation"
    else if objName e.name then
      if skipFor f e.name then nextLoop f false (skipFor f e.name) elts rest
      else .emit (elts ++ [e]) rest
    else nextLoop f false (skipFor f e.name) elts rest
  | true, ds, elts, .start e :: rest =>
    if objName e.name then .panicked "node/way/relation inside another"
    else nextLoop f true ds (if ds then elts else elts ++ [e]) rest
  | true, ds, elts, .empty e :: rest =>
    if objName e.name then .panicked "node/way/relation inside another"
    else nextLoop f true ds (if ds then elts else elts ++ [e]) rest
  | true, ds, elts, .ending nm :: rest =>
    if ds then nextLoop f false false elts rest
    else if objName nm then .emit elts rest
    else nextLoop f true ds elts rest
  | false, ds, elts, .ending _ :: rest => nextLoop f false ds elts rest
  | started, ds, elts, .other :: rest => nextLoop f started ds elts rest

/-- Result of one `_next` call: a process abort, or the source's
`Result<Option<OsmObj>, ReadError>` together with the unread events. -/
inductive NextRes where
  | panicked (msg : String)
  | res (r : Except ReadError (Option OsmObj)) (rest : List XmlEvent)
deriving DecidableEq

/-- `_next` from an arbitrary loop state: run the event loop, then hand an
emitted group to `_process_elements` (`Eof` yields `Ok(None)`). -/
def osmNextState (f : Flags) (started ds : Bool) (elts : List BytesStart)
    (evs : List XmlEvent) : NextRes :=
  match nextLoop f started ds elts evs with
  | .panicked m => .panicked m
  | .eofLeft _ _ _ => .res (.ok none) []
  | .emit g rest =>
    match processElements g with
    | .panicked m => .panicked m
    | .res r => .res r rest

/-- `OsmXmlReader::_next`: the loop starts with `obj_started = false`,
`do_skip = false` and an empty `elements` buffer. -/
def osmNext (f : Flags) (evs : List XmlEvent) : NextRes :=
  osmNextState f false false [] evs

/-- One item of the reader's iterator (`type OsmXmlItem`). -/
def OsmXmlItem := Except ReadError OsmObj
deriving DecidableEq

/-- Outcome of draining the iterator: the finite item sequence, a process
abort after a prefix of items, or exhausted fuel (proven unreachable for
the fuel used by `osmIter`). -/
inductive RunOut where
  | finished (items : List OsmXmlItem)
  | panicked (pre : List OsmXmlItem) (msg : String)
  | fuelOut
deriving DecidableEq

/-- Prepend an item to a drain outcome. -/
def consRun (x : OsmXmlItem) : RunOut → RunOut
  | .finished l => .finished (x :: l)
  | .panicked pre m => .panicked (x :: pre) m
  | .fuelOut => .fuelOut

/-- Fuelled drain of the iterator: `Iterator::next` is
`self._next().transpose()`, so `Ok(None)` ends the sequence, `Ok(Some(o))`
yields `Ok(o)`, and `Err(e)` yields `Err(e)`. -/
def osmIterFuel (f : Flags) : Nat → List XmlEvent → RunOut
  | 0, _ => .fuelOut
  | n + 1, evs =>
    match osmNext f evs with
    | .panicked m => .panicked [] m
    | .res (.ok none) _ => .finished []
    | .res (.ok (some o)) rest => consRun (.ok o) (osmIterFuel f n rest)
    | .res (.error e) rest => consRun (.error e) (osmIterFuel f n rest)

/-- The foreground consumption of the reader: drain the iterator with
enough fuel (one `_next` call consumes at least one event; see
`osmIter_not_fuelOut`). -/
def osmIter (f : Flags) (evs : List XmlEvent) : RunOut :=
  osmIterFuel f (evs.length + 1) evs

/-- Flag assignment prelude of `OsmXmlReader::map_nodes`: it sets
`skip_ways` and `skip_relations` and leaves `skip_nodes` untouched. -/
def mapNodesFlags (f : Flags) : Flags :=
  { f with skip_ways := true, skip_relations := true }

/-- Flag assignment prelude of `OsmXmlReader::map_ways`: it sets
`skip_relations` and `skip_nodes` and leaves `skip_ways` untouched. -/
def mapWaysFlags (f : Flags) : Flags :=
  { f with skip_relations := true, skip_nodes := true }

/-- Flag assignment prelude of `OsmXmlReader::map_all`: each flag becomes
`is_none()` of the corresponding optional callback. -/
def mapAllFlags {α β γ : Type} (nodeCb : Option α) (wayCb : Option β)
    (relCb : Option γ) : Flags :=
  ⟨nodeCb.isNone, wayCb.isNone, relCb.isNone⟩

/-- Capacity of the bounded channel created by `in_background`. -/
def queueCap : Nat := 5

/-- State of the producer/consumer pipeline of `in_background`:
items the producer has not yet sent, items in flight in the bounded
channel (FIFO), and items the consumer has received. -/
structure ChanState (α : Type) where
  pending : List α
  buffered : List α
  received : List α

/-- One step of the pipeline: the producer sends its next item when the
channel has room, or the consumer receives the oldest buffered item. -/
inductive ChanStep (α : Type) : ChanState α → ChanState α → Prop
  | send (x : α) (p q r : List α) (h : q.length < queueCap) :
      ChanStep α ⟨x :: p, q, r⟩ ⟨p, q ++ [x], r⟩
  | recv (x : α) (p q r : List α) :
      ChanStep α ⟨p, x :: q, r⟩ ⟨p, q, r ++ [x]⟩

/-- Finite interleavings of pipeline steps. -/
inductive ChanRun (α : Type) : ChanState α → ChanState α → Prop
  | refl (s : ChanState α) : ChanRun α s s
  | step {s t u : ChanState α} : ChanStep α s t → ChanRun α t u → ChanRun α s u

example : osmNext Flags.new [.start ⟨"node", []⟩, .ending "node"]
    = .res (.error ⟨"node has no longitude"⟩) [] := by decide
example : osmNext Flags.new
    [.start ⟨"way", [("id", "7")]⟩, .empty ⟨"nd", [("ref", "3")]⟩, .ending "way"]
    = .res (.ok (some (.way ⟨{ OsmElementAttrs.new with id := some 7 }, [3], []⟩))) [] := by
  decide
example : osmIter ⟨false, false, true⟩
    [.start ⟨"osm", []⟩, .start ⟨"relation", []⟩, .empty ⟨"member", []⟩,
     .ending "relation", .empty ⟨"way", [("id", "2")]⟩, .ending "osm"]
    = .finished [.ok (.way ⟨{ OsmElementAttrs.new with id := some 2 }, [], []⟩)] := by
  decide

/-! ### Helper lemmas about the association-list maps and the child loop -/

theorem hmGet_hmInsert (t : List (String × String)) (k v key : String) :
    hmGet (hmInsert t k v) key = if k = key then some v else hmGet t key := by
  induction t with
  | nil => simp [hmInsert, hmGet]
  | cons p t ih =>
    obtain ⟨k1, v1⟩ := p
    by_cases h1 : k1 = k
    · subst h1
      by_cases h2 : k1 = key <;> simp [hmInsert, hmGet, h2]
    · by_cases h2 : k1 = key
      · subst h2
        simp [hmInsert, hmGet, h1, Ne.symm h1]
      · simp [hmInsert, hmGet, h1, h2, ih]

theorem tags_insert_kind (o : OsmObj) (k v : String) :
    (o.tags_insert k v).kind = o.kind := by
  cases o <;> rfl

theorem tags_insert_get (o : OsmObj) (k v key : String) :
    hmGet (o.tags_insert k v).tags key
      = if k = key then some v else hmGet o.tags key := by
  cases o <;> simp [OsmObj.tags_insert, OsmObj.tags, hmGet_hmInsert]

theorem processChild_kind {o o2 : OsmObj} {c : BytesStart}
    (h : processChild o c = .ok o2) : o2.kind = o.kind := by
  unfold processChild at h
  by_cases ht : c.name = "tag"
  · simp only [ht, if_true] at h
    rcases hk : hmGet (attrsHashmap c) "k" with _ | k1 <;>
      rcases hv : hmGet (attrsHashmap c) "v" with _ | v1 <;>
      simp [hk, hv] at h <;> subst h <;> simp [tags_insert_kind]
  · by_cases hn : c.name = "nd"
    · simp only [ht, hn, if_false, if_true] at h
      cases o with
      | way w =>
        rcases hr : hmGet (attrsHashmap c) "ref" with _ | s
        · simp [hr] at h; subst h; rfl
        · rcases hp : parseI64 s with _ | n <;> simp [hr, hp] at h
          subst h; rfl
      | node n => simp at h; subst h; rfl
      | relation r => simp at h; subst h; rfl
    · by_cases hm : c.name = "member"
      · simp only [ht, hn, hm, if_false, if_true] at h
        cases o with
        | relation r =>
          rcases hmp : memberParse (attrsHashmap c) with e | m <;> simp [hmp] at h
          subst h; rfl
        | node n => simp at h; subst h; rfl
        | way w => simp at h; subst h; rfl
      · simp only [ht, hn, hm, if_false] at h
        injection h with h2
        subst h2; rfl

/-- Value contributed by one child element to the tag mapping at a given
key: its `v` if it is a `<tag>` with both `k` and `v` present and `k`
equal to the key. -/
def tagVal (c : BytesStart) (key : String) : Option String :=
  if c.name = "tag" then
    match hmGet (attrsHashmap c) "k", hmGet (attrsHashmap c) "v" with
    | some k1, some v1 => if k1 = key then some v1 else none
    | _, _ => none
  else none

/-- The value of the last matching `<tag>` child in document order. -/
def lastTagValue (cs : List BytesStart) (key : String) : Option String :=
  (cs.filterMap (fun c => tagVal c key)).getLast?

/-- Node reference contributed by one child element: the parsed `ref` of a
`<nd>`, absent when the attribute is absent. -/
def ndRef (c : BytesStart) : Option Int :=
  if c.name = "nd" then (hmGet (attrsHashmap c) "ref").bind parseI64 else none

/-- Member contributed by one child element: the parse of a `<member>`,
when it succeeds. -/
def memberVal (c : BytesStart) : Option Member :=
  if c.name = "member" then (memberParse (attrsHashmap c)).toOption else none

theorem optOrNone {α : Type} (a : Option α) : a.or none = a := by cases a <;> rfl

theorem optNoneOr {α : Type} (a : Option α) : Option.or none a = a := rfl

theorem optOrAssoc {α : Type} (a b c : Option α) :
    (a.or b).or c = a.or (b.or c) := by cases a <;> rfl

theorem getLastQ_cons_or {α : Type} (l : List α) (a : α) :
    (a :: l).getLast? = l.getLast?.or (some a) := by
  induction l generalizing a with
  | nil => rfl
  | cons b bs ih =>
    rw [List.getLast?_cons_cons, ih b]
    cases hbs : bs.getLast? <;> rfl

theorem lastTagValue_nil (key : String) : lastTagValue [] key = none := rfl

theorem lastTagValue_cons (c : BytesStart) (t : List BytesStart) (key : String) :
    lastTagValue (c :: t) key = (lastTagValue t key).or (tagVal c key) := by
  unfold lastTagValue
  rw [List.filterMap_cons]
  cases htv : tagVal c key with
  | none => rw [optOrNone]
  | some v => rw [getLastQ_cons_or]

theorem processChild_get {o o2 : OsmObj} {c : BytesStart}
    (h : processChild o c = .ok o2) (key : String) :
    hmGet o2.tags key = (tagVal c key).or (hmGet o.tags key) := by
  unfold processChild at h
  by_cases ht : c.name = "tag"
  · simp only [ht, if_true] at h
    rcases hk : hmGet (attrsHashmap c) "k" with _ | k1 <;>
      rcases hv : hmGet (attrsHashmap c) "v" with _ | v1 <;>
      simp only [hk, hv, tagVal, ht, if_true] at h ⊢
    · injection h with h2; subst h2; rfl
    · injection h with h2; subst h2; rfl
    · injection h with h2; subst h2; rfl
    · injection h with h2
      subst h2
      rw [tags_insert_get]
      by_cases hkey : k1 = key <;> simp [hkey, Option.or]
  · have htv : tagVal c key = none := by simp [tagVal, ht]
    rw [htv, optNoneOr]
    rw [if_neg ht] at h
    by_cases hn : c.name = "nd"
    · rw [if_pos hn] at h
      cases o with
      | way w =>
        rcases hr : hmGet (attrsHashmap c) "ref" with _ | s
        · simp only [hr] at h; injection h with h2; subst h2; rfl
        · rcases hp : parseI64 s with _ | n
          · simp [hr, hp] at h
          · simp only [hr, hp] at h
            injection h with h2; subst h2; rfl
      | node n => injection h with h2; subst h2; rfl
      | relation r => injection h with h2; subst h2; rfl
    · rw [if_neg hn] at h
      by_cases hm : c.name = "member"
      · rw [if_pos hm] at h
        cases o with
        | relation r =>
          rcases hmp : memberParse (attrsHashmap c) with e | m
          · simp [hmp] at h
          · simp only [hmp] at h
            injection h with h2; subst h2; rfl
        | node n => injection h with h2; subst h2; rfl
        | way w => injection h with h2; subst h2; rfl
      · rw [if_neg hm] at h
        injection h with h2; subst h2; rfl

theorem processChild_way {w : Way} {o2 : OsmObj} {c : BytesStart}
    (h : processChild (.way w) c = .ok o2) :
    ∃ w2 : Way, o2 = .way w2 ∧ w2.nodes = w.nodes ++ (ndRef c).toList := by
  unfold processChild at h
  by_cases ht : c.name = "tag"
  · rw [if_pos ht] at h
    have hnv : ndRef c = none := by simp [ndRef, ht]
    rcases hk : hmGet (attrsHashmap c) "k" with _ | k1 <;>
      rcases hv : hmGet (attrsHashmap c) "v" with _ | v1 <;>
        simp only [hk, hv] at h <;> injection h with h2 <;> subst h2 <;>
          exact ⟨_, rfl, by simp [hnv, OsmObj.tags_insert]⟩
  · rw [if_neg ht] at h
    by_cases hn : c.name = "nd"
    · rw [if_pos hn] at h
      rcases hr : hmGet (attrsHashmap c) "ref" with _ | s
      · simp only [hr] at h
        injection h with h2; subst h2
        exact ⟨w, rfl, by simp [ndRef, hn, hr]⟩
      · rcases hp : parseI64 s with _ | n
        · simp [hr, hp] at h
        · simp only [hr, hp] at h
          injection h with h2; subst h2
          exact ⟨_, rfl, by simp [ndRef, hn, hr, hp]⟩
    · rw [if_neg hn] at h
      have hnv : ndRef c = none := by simp [ndRef, hn]
      by_cases hm : c.name = "member"
      · rw [if_pos hm] at h
        injection h with h2; subst h2
        exact ⟨w, rfl, by simp [hnv]⟩
      · rw [if_neg hm] at h
        injection h with h2; subst h2
        exact ⟨w, rfl, by simp [hnv]⟩

theorem processChild_relation {r : Relation} {o2 : OsmObj} {c : BytesStart}
    (h : processChild (.relation r) c = .ok o2) :
    ∃ r2 : Relation, o2 = .relation r2 ∧
      r2.members = r.members ++ (memberVal c).toList := by
  unfold processChild at h
  by_cases ht : c.name = "tag"
  · rw [if_pos ht] at h
    have hnv : memberVal c = none := by simp [memberVal, ht]
    rcases hk : hmGet (attrsHashmap c) "k" with _ | k1 <;>
      rcases hv : hmGet (attrsHashmap c) "v" with _ | v1 <;>
        simp only [hk, hv] at h <;> injection h with h2 <;> subst h2 <;>
          exact ⟨_, rfl, by simp [hnv, OsmObj.tags_insert]⟩
  · rw [if_neg ht] at h
    by_cases hn : c.name = "nd"
    · rw [if_pos hn] at h
      injection h with h2; subst h2
      exact ⟨r, rfl, by simp [memberVal, hn]⟩
    · rw [if_neg hn] at h
      by_cases hm : c.name = "member"
      · rw [if_pos hm] at h
        rcases hmp : memberParse (attrsHashmap c) with e | m
        · simp [hmp] at h
        · simp only [hmp] at h
          injection h with h2; subst h2
          exact ⟨_, rfl, by simp [memberVal, hm, hmp, Except.toOption]⟩
      · rw [if_neg hm] at h
        injection h with h2; subst h2
        exact ⟨r, rfl, by simp [memberVal, hm]⟩

theorem processChild_way_nd_bad {w : Way} {c : BytesStart} {s : String}
    (hn : c.name = "nd") (hr : hmGet (attrsHashmap c) "ref" = some s)
    (hp : parseI64 s = none) : processChild (.way w) c = .error parseErr := by
  have ht : c.name ≠ "tag" := by rw [hn]; decide
  unfold processChild
  rw [if_neg ht, if_pos hn]
  simp only [hr, hp]

theorem processChild_relation_member_err {r : Relation} {c : BytesStart} {er : ReadError}
    (hm : c.name = "member") (hmp : memberParse (attrsHashmap c) = .error er) :
    processChild (.relation r) c = .error er := by
  have ht : c.name ≠ "tag" := by rw [hm]; decide
  have hn : c.name ≠ "nd" := by rw [hm]; decide
  unfold processChild
  rw [if_neg ht, if_neg hn, if_pos hm]
  simp only [hmp]

theorem processChildren_error (e : ReadError) (cs : List BytesStart) :
    processChildren (.error e) cs = .error e := by
  cases cs <;> rfl

theorem processChildren_cons_ok {o o2 : OsmObj} {c : BytesStart} {t : List BytesStart}
    (h : processChildren (.ok o) (c :: t) = .ok o2) :
    ∃ o1, processChild o c = .ok o1 ∧ processChildren (.ok o1) t = .ok o2 := by
  rcases hc : processChild o c with e | o1
  · rw [show processChildren (.ok o) (c :: t) = processChildren (processChild o c) t from rfl,
      hc, processChildren_error] at h
    exact absurd h (by simp)
  · refine ⟨o1, rfl, ?_⟩
    rw [show processChildren (.ok o) (c :: t) = processChildren (processChild o c) t from rfl,
      hc] at h
    exact h

theorem processChildren_append (i : Except ReadError OsmObj) (l1 l2 : List BytesStart) :
    processChildren i (l1 ++ l2) = processChildren (processChildren i l1) l2 := by
  induction l1 generalizing i with
  | nil => cases i with
    | error e => simp [processChildren, processChildren_error]
    | ok o => rfl
  | cons c t ih =>
    cases i with
    | error e => simp [processChildren_error]
    | ok o =>
      rw [List.cons_append,
        show processChildren (.ok o) (c :: (t ++ l2)) = processChildren (processChild o c) (t ++ l2) from rfl,
        ih, show processChildren (.ok o) (c :: t) = processChildren (processChild o c) t from rfl]

theorem processChildren_kind {cs : List BytesStart} :
    ∀ {o o2 : OsmObj}, processChildren (.ok o) cs = .ok o2 → o2.kind = o.kind := by
  induction cs with
  | nil => intro o o2 h; injection h with h2; subst h2; rfl
  | cons c t ih =>
    intro o o2 h
    obtain ⟨o1, hc, hrest⟩ := processChildren_cons_ok h
    rw [ih hrest, processChild_kind hc]

theorem processChildren_get {cs : List BytesStart} :
    ∀ {o o2 : OsmObj}, processChildren (.ok o) cs = .ok o2 →
      ∀ key, hmGet o2.tags key = (lastTagValue cs key).or (hmGet o.tags key) := by
  induction cs with
  | nil =>
    intro o o2 h key
    injection h with h2; subst h2
    rw [lastTagValue_nil, optNoneOr]
  | cons c t ih =>
    intro o o2 h key
    obtain ⟨o1, hc, hrest⟩ := processChildren_cons_ok h
    rw [ih hrest key, processChild_get hc key, lastTagValue_cons, optOrAssoc]

theorem processChildren_way {cs : List BytesStart} :
    ∀ {w : Way} {o2 : OsmObj}, processChildren (.ok (.way w)) cs = .ok o2 →
      ∃ w2, o2 = .way w2 ∧ w2.nodes = w.nodes ++ cs.filterMap ndRef := by
  induction cs with
  | nil =>
    intro w o2 h
    injection h with h2; subst h2
    exact ⟨w, rfl, by simp⟩
  | cons c t ih =>
    intro w o2 h
    obtain ⟨o1, hc, hrest⟩ := processChildren_cons_ok h
    obtain ⟨w1, ho1, hn1⟩ := processChild_way hc
    subst ho1
    obtain ⟨w2, ho2, hn2⟩ := ih hrest
    refine ⟨w2, ho2, ?_⟩
    rw [hn2, hn1, List.filterMap_cons]
    cases hr : ndRef c <;> simp [hr, Option.toList]

theorem processChildren_relation {cs : List BytesStart} :
    ∀ {r : Relation} {o2 : OsmObj}, processChildren (.ok (.relation r)) cs = .ok o2 →
      ∃ r2, o2 = .relation r2 ∧ r2.members = r.members ++ cs.filterMap memberVal := by
  induction cs with
  | nil =>
    intro r o2 h
    injection h with h2; subst h2
    exact ⟨r, rfl, by simp⟩
  | cons c t ih =>
    intro r o2 h
    obtain ⟨o1, hc, hrest⟩ := processChildren_cons_ok h
    obtain ⟨r1, ho1, hm1⟩ := processChild_relation hc
    subst ho1
    obtain ⟨r2, ho2, hm2⟩ := ih hrest
    refine ⟨r2, ho2, ?_⟩
    rw [hm2, hm1, List.filterMap_cons]
    cases hr : memberVal c <;> simp [hr, Option.toList]

theorem optParse_ok {α : Type} {o : Option String} {p : String → Option α}
    {v : Option α} (h : optParse o p = .ok v) : v = o.bind p := by
  cases o with
  | none => injection h with h2; subst h2; rfl
  | some s =>
    unfold optParse at h
    rcases hp : p s with _ | w <;> simp only [hp] at h
    · exact absurd h (by simp)
    · injection h with h2; subst h2; simp [hp]

theorem optParse_some_isSome {α : Type} {p : String → Option α} {v : Option α}
    {s : String} (h : optParse (some s) p = .ok v) : (p s).isSome = true := by
  unfold optParse at h
  rcases hp : p s with _ | w <;> simp [hp] at h ⊢

theorem optParse_bad {α : Type} {p : String → Option α} {s : String}
    (hp : p s = none) : optParse (some s) p = .error parseErr := by
  simp [optParse, hp]

theorem tryFrom_ok_inv {ah : ParsedAttrs} {a : OsmElementAttrs}
    (h : osmElementAttrsTryFrom ah = .ok a) :
    a = ⟨(hmGet ah "id").bind parseI64, hmGet ah "timestamp",
      (hmGet ah "uid").bind parseI64, hmGet ah "user",
      (hmGet ah "visible").bind parseBool, (hmGet ah "deleted").bind parseBool,
      (hmGet ah "version").bind parseU32, (hmGet ah "changeset").bind parseU64⟩ := by
  unfold osmElementAttrsTryFrom at h
  rcases h1 : optParse (hmGet ah "changeset") parseU64 with e | cv <;> simp only [h1] at h
  · exact absurd h (by simp)
  rcases h2 : optParse (hmGet ah "deleted") parseBool with e | dv <;> simp only [h2] at h
  · exact absurd h (by simp)
  rcases h3 : optParse (hmGet ah "id") parseI64 with e | iv <;> simp only [h3] at h
  · exact absurd h (by simp)
  rcases h4 : optParse (hmGet ah "uid") parseI64 with e | uv <;> simp only [h4] at h
  · exact absurd h (by simp)
  rcases h5 : optParse (hmGet ah "version") parseU32 with e | vv <;> simp only [h5] at h
  · exact absurd h (by simp)
  rcases h6 : optParse (hmGet ah "visible") parseBool with e | sv <;> simp only [h6] at h
  · exact absurd h (by simp)
  injection h with h7
  subst h7
  rw [optParse_ok h1, optParse_ok h2, optParse_ok h3, optParse_ok h4,
    optParse_ok h5, optParse_ok h6]

theorem tryFrom_ok_parses {ah : ParsedAttrs} {a : OsmElementAttrs}
    (h : osmElementAttrsTryFrom ah = .ok a) :
    (∀ s, hmGet ah "changeset" = some s → (parseU64 s).isSome = true)
    ∧ (∀ s, hmGet ah "deleted" = some s → (parseBool s).isSome = true)
    ∧ (∀ s, hmGet ah "id" = some s → (parseI64 s).isSome = true)
    ∧ (∀ s, hmGet ah "uid" = some s → (parseI64 s).isSome = true)
    ∧ (∀ s, hmGet ah "version" = some s → (parseU32 s).isSome = true)
    ∧ (∀ s, hmGet ah "visible" = some s → (parseBool s).isSome = true) := by
  unfold osmElementAttrsTryFrom at h
  rcases h1 : optParse (hmGet ah "changeset") parseU64 with e | cv <;> simp only [h1] at h
  · exact absurd h (by simp)
  rcases h2 : optParse (hmGet ah "deleted") parseBool with e | dv <;> simp only [h2] at h
  · exact absurd h (by simp)
  rcases h3 : optParse (hmGet ah "id") parseI64 with e | iv <;> simp only [h3] at h
  · exact absurd h (by simp)
  rcases h4 : optParse (hmGet ah "uid") parseI64 with e | uv <;> simp only [h4] at h
  · exact absurd h (by simp)
  rcases h5 : optParse (hmGet ah "version") parseU32 with e | vv <;> simp only [h5] at h
  · exact absurd h (by simp)
  rcases h6 : optParse (hmGet ah "visible") parseBool with e | sv <;> simp only [h6] at h
  · exact absurd h (by simp)
  refine ⟨fun s hs => ?_, fun s hs => ?_, fun s hs => ?_, fun s hs => ?_,
    fun s hs => ?_, fun s hs => ?_⟩
  · rw [hs] at h1; exact optParse_some_isSome h1
  · rw [hs] at h2; exact optParse_some_isSome h2
  · rw [hs] at h3; exact optParse_some_isSome h3
  · rw [hs] at h4; exact optParse_some_isSome h4
  · rw [hs] at h5; exact optParse_some_isSome h5
  · rw [hs] at h6; exact optParse_some_isSome h6

theorem initObj_way (ah : ParsedAttrs) (a : OsmElementAttrs) :
    initObj "way" ah a = some (.ok (.way ⟨a, [], []⟩)) := by
  simp [initObj]

theorem initObj_relation (ah : ParsedAttrs) (a : OsmElementAttrs) :
    initObj "relation" ah a = some (.ok (.relation ⟨a, [], []⟩)) := by
  simp [initObj]

theorem initObj_node_noLon {ah : ParsedAttrs} (a : OsmElementAttrs)
    (hl : hmGet ah "lon" = none) :
    initObj "node" ah a = some (.error ⟨"node has no longitude"⟩) := by
  simp [initObj, hl]

theorem initObj_node_noLat {ah : ParsedAttrs} (a : OsmElementAttrs) {s : String} {v : Rat}
    (hl : hmGet ah "lon" = some s) (hv : parseF32 s = some v)
    (hla : hmGet ah "lat" = none) :
    initObj "node" ah a = some (.error ⟨"node has no latitude"⟩) := by
  simp [initObj, hl, hv, hla]

theorem initObj_ok_inv {nm : String} {ah : ParsedAttrs} {a : OsmElementAttrs}
    {o0 : OsmObj} (h : initObj nm ah a = some (.ok o0)) :
    o0.tags = [] ∧ nm = kindName o0.kind
    ∧ (∀ w, o0 = .way w → w = ⟨a, [], []⟩)
    ∧ (∀ r, o0 = .relation r → r = ⟨a, [], []⟩) := by
  unfold initObj at h
  by_cases h1 : nm = "node"
  · rw [if_pos h1] at h
    injection h with h2
    rcases hl : hmGet ah "lon" with _ | lons <;> simp only [hl] at h2
    · exact absurd h2 (by simp)
    rcases hpl : parseF32 lons with _ | lon <;> simp only [hpl] at h2
    · exact absurd h2 (by simp)
    rcases hla : hmGet ah "lat" with _ | lats <;> simp only [hla] at h2
    · exact absurd h2 (by simp)
    rcases hpa : parseF32 lats with _ | lat <;> simp only [hpa] at h2
    · exact absurd h2 (by simp)
    injection h2 with h3
    subst h3
    exact ⟨rfl, h1, fun w hw => by simp at hw, fun r hr => by simp at hr⟩
  · rw [if_neg h1] at h
    by_cases h2 : nm = "way"
    · rw [if_pos h2] at h
      injection h with h3
      injection h3 with h4
      subst h4
      exact ⟨rfl, h2, fun w hw => by injection hw with h5; rw [h5],
        fun r hr => by simp at hr⟩
    · rw [if_neg h2] at h
      by_cases h3 : nm = "relation"
      · rw [if_pos h3] at h
        injection h with h4
        injection h4 with h5
        subst h5
        exact ⟨rfl, h3, fun w hw => by simp at hw,
          fun r hr => by injection hr with h6; rw [h6]⟩
      · rw [if_neg h3] at h
        exact absurd h (by simp)

theorem processElements_cons_ok {elt : BytesStart} {cs : List BytesStart} {o : OsmObj}
    (h : processElements (elt :: cs) = .res (.ok (some o))) :
    ∃ a o0, osmElementAttrsTryFrom (attrsHashmap elt) = .ok a
      ∧ initObj elt.name (attrsHashmap elt) a = some (.ok o0)
      ∧ processChildren (.ok o0) cs = .ok o := by
  unfold processElements at h
  rcases hA : osmElementAttrsTryFrom (attrsHashmap elt) with e | a <;> simp only [hA] at h
  · exact absurd h (by simp)
  rcases hI : initObj elt.name (attrsHashmap elt) a with _ | ini <;> simp only [hI] at h
  · exact absurd h (by simp)
  cases ini with
  | error e0 =>
    rw [processChildren_error] at h
    exact absurd h (by simp)
  | ok o0 =>
    rcases hC : processChildren (.ok o0) cs with e | o2 <;> simp only [hC] at h
    · exact absurd h (by simp)
    · have ho : o2 = o := by simpa using h
      exact ⟨a, o0, rfl, hI, by rw [hC, ho]⟩

theorem processElements_ok_kind {elt : BytesStart} {cs : List BytesStart} {o : OsmObj}
    (h : processElements (elt :: cs) = .res (.ok (some o))) :
    elt.name = kindName o.kind := by
  obtain ⟨a, o0, hA, hI, hC⟩ := processElements_cons_ok h
  obtain ⟨-, hnm, -, -⟩ := initObj_ok_inv hI
  rw [hnm, processChildren_kind hC]

theorem processElements_node_noLon {elt : BytesStart} (cs : List BytesStart)
    {a : OsmElementAttrs} (hn : elt.name = "node")
    (hA : osmElementAttrsTryFrom (attrsHashmap elt) = .ok a)
    (hl : hmGet (attrsHashmap elt) "lon" = none) :
    processElements (elt :: cs) = .res (.error ⟨"node has no longitude"⟩) := by
  unfold processElements
  simp [hA, hn, initObj_node_noLon a hl, processChildren_error]

theorem processElements_node_noLat {elt : BytesStart} (cs : List BytesStart)
    {a : OsmElementAttrs} {s : String} {v : Rat} (hn : elt.name = "node")
    (hA : osmElementAttrsTryFrom (attrsHashmap elt) = .ok a)
    (hl : hmGet (attrsHashmap elt) "lon" = some s) (hv : parseF32 s = some v)
    (hla : hmGet (attrsHashmap elt) "lat" = none) :
    processElements (elt :: cs) = .res (.error ⟨"node has no latitude"⟩) := by
  unfold processElements
  simp [hA, hn, initObj_node_noLat a hl hv hla, processChildren_error]

theorem nextLoop_emit_lt (f : Flags) :
    ∀ (evs : List XmlEvent) (started ds : Bool) (elts : List BytesStart)
      (g : List BytesStart) (rest : List XmlEvent),
      nextLoop f started ds elts evs = .emit g rest → rest.length < evs.length := by
  intro evs
  induction evs with
  | nil =>
    intro started ds elts g rest h
    simp [nextLoop] at h
  | cons ev t ih =>
    intro started ds elts g rest h
    cases ev <;> cases started <;> simp only [nextLoop] at h <;> try split_ifs at h
    all_goals
      first
      | (cases h; exact Nat.lt_succ_self _)
      | exact Nat.lt_succ_of_lt (ih _ _ _ _ _ h)

/-- Safety of one `_next` outcome with respect to a skipped kind: a group
handed to `_process_elements` never opens with that kind's element, and the
buffer left at `Eof` never does either — and is empty whenever the loop was
still in skipping mode. -/
def SkipSafe (k : ObjType) : LoopOut → Prop
  | .panicked _ => True
  | .eofLeft _ ds2 left =>
      (∀ e, left.head? = some e → e.name ≠ kindName k) ∧ (ds2 = true → left = [])
  | .emit g _ => ∀ e, g.head? = some e → e.name ≠ kindName k

theorem objName_kindName (k : ObjType) : objName (kindName k) = true := by
  cases k <;> decide

theorem nextLoop_skipSafe (f : Flags) (k : ObjType)
    (hf : skipFor f (kindName k) = true) :
    ∀ (evs : List XmlEvent) (started ds : Bool) (elts : List BytesStart),
      (started = false → elts = []) → (ds = true → elts = []) →
      (∀ e, elts.head? = some e → e.name ≠ kindName k) →
      SkipSafe k (nextLoop f started ds elts evs) := by
  intro evs
  induction evs with
  | nil =>
    intro started ds elts h1 h2 h3
    simp only [nextLoop]
    exact ⟨h3, h2⟩
  | cons ev t ih =>
    intro started ds elts h1 h2 h3
    have hpush : ∀ e : BytesStart, objName e.name = false →
        (∀ e2, (elts ++ [e]).head? = some e2 → e2.name ≠ kindName k) := by
      intro e he e2 he2
      cases elts with
      | nil =>
        simp at he2
        subst he2
        intro hk
        rw [hk, objName_kindName] at he
        exact absurd he (by simp)
      | cons b bs =>
        simp at he2
        exact he2 ▸ h3 b (by simp)
    cases ev with
    | start e =>
      cases started with
      | false =>
        have helts := h1 rfl
        subst helts
        simp only [nextLoop]
        split_ifs with hc ho hs
        · trivial
        · exact ih true (skipFor f e.name) [] (by intro hx; exact rfl)
            (by intro _; rfl) (by intro e2 he2; simp at he2)
        · refine ih true (skipFor f e.name) ([] ++ [e]) (by simp) ?_ ?_
          · intro hds; rw [hds] at hs; exact absurd rfl hs
          · intro e2 he2
            simp at he2
            subst he2
            intro hk
            rw [hk, hf] at hs
            exact hs rfl
        · exact ih false (skipFor f e.name) [] (fun _ => rfl) (fun _ => rfl)
            (by intro e2 he2; simp at he2)
      | true =>
        simp only [nextLoop]
        by_cases ho : objName e.name = true
        · rw [if_pos ho]; trivial
        · rw [if_neg ho]
          cases ds with
          | true =>
            have helts := h2 rfl
            subst helts
            rw [if_pos rfl]
            exact ih true true [] (by simp) (fun _ => rfl) (by intro e2 he2; simp at he2)
          | false =>
            rw [if_neg (by simp)]
            refine ih true false (elts ++ [e]) (by simp) (by simp) (hpush e ?_)
            simpa using ho
    | empty e =>
      cases started with
      | false =>
        have helts := h1 rfl
        subst helts
        simp only [nextLoop]
        split_ifs with hc ho hs
        · trivial
        · exact ih false (skipFor f e.name) [] (fun _ => rfl) (fun _ => rfl)
            (by intro e2 he2; simp at he2)
        · intro e2 he2
          simp at he2
          subst he2
          intro hk
          rw [hk, hf] at hs
          exact hs rfl
        · exact ih false (skipFor f e.name) [] (fun _ => rfl) (fun _ => rfl)
            (by intro e2 he2; simp at he2)
      | true =>
        simp only [nextLoop]
        by_cases ho : objName e.name = true
        · rw [if_pos ho]; trivial
        · rw [if_neg ho]
          cases ds with
          | true =>
            have helts := h2 rfl
            subst helts
            rw [if_pos rfl]
            exact ih true true [] (by simp) (fun _ => rfl) (by intro e2 he2; simp at he2)
          | false =>
            rw [if_neg (by simp)]
            refine ih true false (elts ++ [e]) (by simp) (by simp) (hpush e ?_)
            simpa using ho
    | ending nm =>
      cases started with
      | false =>
        simp only [nextLoop]
        exact ih false ds elts h1 h2 h3
      | true =>
        simp only [nextLoop]
        split_ifs with hds ho
        · have helts := h2 (by simpa using hds)
          subst helts
          exact ih false false [] (fun _ => rfl) (fun _ => rfl)
            (by intro e2 he2; simp at he2)
        · exact h3
        · exact ih true ds elts (by simp) h2 h3
    | other =>
      cases started with
      | false =>
        simp only [nextLoop]
        exact ih false ds elts h1 h2 h3
      | true =>
        simp only [nextLoop]
        exact ih true ds elts h1 h2 h3

theorem consRun_ne_fuelOut (x : OsmXmlItem) (ro : RunOut) :
    consRun x ro = .fuelOut ↔ ro = .fuelOut := by
  cases ro <;> simp [consRun]

theorem osmNext_some_lt {f : Flags} {evs : List XmlEvent} {o : OsmObj}
    {rest : List XmlEvent} (h : osmNext f evs = .res (.ok (some o)) rest) :
    rest.length < evs.length := by
  unfold osmNext osmNextState at h
  cases hL : nextLoop f false false [] evs with
  | panicked m => simp only [hL] at h; exact absurd h (by simp)
  | eofLeft st ds2 left => simp only [hL] at h; simp at h
  | emit g rest2 =>
    simp only [hL] at h
    cases hP : processElements g with
    | panicked m => simp only [hP] at h; exact absurd h (by simp)
    | res r =>
      simp only [hP] at h
      injection h with h1 h2
      subst h2
      exact nextLoop_emit_lt f evs false false [] g _ hL

theorem osmNext_error_lt {f : Flags} {evs : List XmlEvent} {e : ReadError}
    {rest : List XmlEvent} (h : osmNext f evs = .res (.error e) rest) :
    rest.length < evs.length := by
  unfold osmNext osmNextState at h
  cases hL : nextLoop f false false [] evs with
  | panicked m => simp only [hL] at h; exact absurd h (by simp)
  | eofLeft st ds2 left => simp only [hL] at h; simp at h
  | emit g rest2 =>
    simp only [hL] at h
    cases hP : processElements g with
    | panicked m => simp only [hP] at h; exact absurd h (by simp)
    | res r =>
      simp only [hP] at h
      injection h with h1 h2
      subst h2
      exact nextLoop_emit_lt f evs false false [] g _ hL

theorem osmIterFuel_ne_fuelOut (f : Flags) :
    ∀ (n : Nat) (evs : List XmlEvent), evs.length < n →
      osmIterFuel f n evs ≠ .fuelOut := by
  intro n
  induction n with
  | zero => intro evs h; exact absurd h (Nat.not_lt_zero _)
  | succ n ih =>
    intro evs hlen
    unfold osmIterFuel
    cases hN : osmNext f evs with
    | panicked m => simp
    | res r rest =>
      cases r with
      | ok o =>
        cases o with
        | none => simp
        | some ob =>
          have hlt : rest.length < n :=
            Nat.lt_of_lt_of_le (osmNext_some_lt hN) (Nat.lt_succ_iff.mp hlen)
          intro hcon
          exact ih rest hlt ((consRun_ne_fuelOut _ _).mp hcon)
      | error e =>
        have hlt : rest.length < n :=
          Nat.lt_of_lt_of_le (osmNext_error_lt hN) (Nat.lt_succ_iff.mp hlen)
        intro hcon
        exact ih rest hlt ((consRun_ne_fuelOut _ _).mp hcon)

/-- The fuel used by `osmIter` always suffices: each emitted item consumes
at least one tokenizer event, so the drain never runs out of fuel and the
fuelled definition is a faithful model of the Rust iterator loop. -/
theorem osmIter_ne_fuelOut (f : Flags) (evs : List XmlEvent) :
    osmIter f evs ≠ .fuelOut :=
  osmIterFuel_ne_fuelOut f (evs.length + 1) evs (Nat.lt_succ_self _)

theorem chanStep_inv {α : Type} {s t : ChanState α} (h : ChanStep α s t) :
    t.received ++ t.buffered ++ t.pending = s.received ++ s.buffered ++ s.pending := by
  cases h with
  | send x p q r hq => simp
  | recv x p q r => simp

theorem chanRun_inv {α : Type} {s t : ChanState α} (h : ChanRun α s t) :
    t.received ++ t.buffered ++ t.pending = s.received ++ s.buffered ++ s.pending := by
  induction h with
  | refl s => rfl
  | step hs hr ih => rw [ih, chanStep_inv hs]

theorem processElements_attrs_err {elt : BytesStart} (cs : List BytesStart)
    {e : ReadError} (hA : osmElementAttrsTryFrom (attrsHashmap elt) = .error e) :
    processElements (elt :: cs) = .res (.error e) := by
  unfold processElements
  simp [hA]

theorem processElements_way_children_err {elt : BytesStart} {cs : List BytesStart}
    {a : OsmElementAttrs} {e : ReadError} (hw : elt.name = "way")
    (hA : osmElementAttrsTryFrom (attrsHashmap elt) = .ok a)
    (hC : processChildren (.ok (.way ⟨a, [], []⟩)) cs = .error e) :
    processElements (elt :: cs) = .res (.error e) := by
  unfold processElements
  simp [hA, hw, initObj_way, hC]

theorem processChildren_way_bad {cs : List BytesStart} :
    ∀ {w : Way} {o2 : OsmObj}, processChildren (.ok (.way w)) cs = .ok o2 →
      ∀ c ∈ cs, ¬(c.name = "nd"
        ∧ ∃ s, hmGet (attrsHashmap c) "ref" = some s ∧ parseI64 s = none) := by
  induction cs with
  | nil => intro w o2 _ c hc; simp at hc
  | cons c0 t ih =>
    intro w o2 h c hc
    obtain ⟨o1, hc0, hrest⟩ := processChildren_cons_ok h
    rcases List.mem_cons.mp hc with hceq | hct
    · subst hceq
      rintro ⟨hn, s, hr, hp⟩
      rw [processChild_way_nd_bad hn hr hp] at hc0
      exact absurd hc0 (by simp)
    · obtain ⟨w1, ho1, -⟩ := processChild_way hc0
      subst ho1
      exact ih hrest c hct

theorem processElements_ok_way {elt : BytesStart} {cs : List BytesStart} {w : Way}
    (h : processElements (elt :: cs) = .res (.ok (some (.way w)))) :
    ∃ a, osmElementAttrsTryFrom (attrsHashmap elt) = .ok a
      ∧ processChildren (.ok (.way ⟨a, [], []⟩)) cs = .ok (.way w) := by
  obtain ⟨a, o0, hA, hI, hC⟩ := processElements_cons_ok h
  have hk := processChildren_kind hC
  cases o0 with
  | node n => simp [OsmObj.kind] at hk
  | relation r => simp [OsmObj.kind] at hk
  | way w0 =>
    obtain ⟨-, -, hw0, -⟩ := initObj_ok_inv hI
    rw [hw0 w0 rfl] at hC
    exact ⟨a, hA, hC⟩

theorem processElements_ok_relation {elt : BytesStart} {cs : List BytesStart}
    {r : Relation} (h : processElements (elt :: cs) = .res (.ok (some (.relation r)))) :
    ∃ a, osmElementAttrsTryFrom (attrsHashmap elt) = .ok a
      ∧ processChildren (.ok (.relation ⟨a, [], []⟩)) cs = .ok (.relation r) := by
  obtain ⟨a, o0, hA, hI, hC⟩ := processElements_cons_ok h
  have hk := processChildren_kind hC
  cases o0 with
  | node n => simp [OsmObj.kind] at hk
  | way w => simp [OsmObj.kind] at hk
  | relation r0 =>
    obtain ⟨-, -, -, hr0⟩ := initObj_ok_inv hI
    rw [hr0 r0 rfl] at hC
    exact ⟨a, hA, hC⟩

/-! ### Claim theorems -/

/-- C1 (counterexample): the claim "for every reader, when map_nodes is
invoked the skip flag for nodes is false" is false as stated: `map_nodes`
only sets `skip_ways` and `skip_relations` and never resets `skip_nodes`,
so a reader whose `skip_nodes` flag is already true keeps it true. -/
theorem c1_filter_flag_policy_counterexample :
    ¬ (∀ f : Flags, (mapNodesFlags f).skip_nodes = false) := by
  intro h
  have hx := h ⟨true, false, false⟩
  simp [mapNodesFlags] at hx

/-- C1 (amended): when a per-kind callback driver is invoked, the other two
skip flags are forced true and the flag for the driver's own kind is left
unchanged — hence false for a freshly constructed reader (`Flags.new`), but
not for every reader; the all-kinds driver `map_all` sets each flag to true
exactly when its corresponding callback argument is `None`. -/
theorem c1_filter_flag_policy_amended (f : Flags) (nodeCb wayCb relCb : Option Unit) :
    (mapNodesFlags f).skip_ways = true ∧ (mapNodesFlags f).skip_relations = true
    ∧ (mapNodesFlags f).skip_nodes = f.skip_nodes
    ∧ (mapWaysFlags f).skip_nodes = true ∧ (mapWaysFlags f).skip_relations = true
    ∧ (mapWaysFlags f).skip_ways = f.skip_ways
    ∧ (mapNodesFlags Flags.new).skip_nodes = false
    ∧ (mapWaysFlags Flags.new).skip_ways = false
    ∧ mapAllFlags nodeCb wayCb relCb
        = ⟨nodeCb.isNone, wayCb.isNone, relCb.isNone⟩ :=
  ⟨rfl, rfl, rfl, rfl, rfl, rfl, rfl, rfl, rfl⟩

/-- C7: when an `nd`/`tag`/`member` element opens (Start or Empty) while no
top-level object is in progress, or a `node`/`way`/`relation` element opens
while an object is in progress, `_next` aborts the whole process
(panics) — in any loop state, for any skip flags — rather than returning an
error value in the result sequence. -/
theorem c7_fatal_structural (f : Flags) (ds : Bool) (elts : List BytesStart)
    (rest : List XmlEvent) (e : BytesStart) :
    (childName e.name = true →
      osmNextState f false ds elts (.start e :: rest)
          = .panicked "nd/tag/member outside of node/way/relation"
      ∧ osmNextState f false ds elts (.empty e :: rest)
          = .panicked "nd/tag/member outside of node/way/relation")
    ∧ (objName e.name = true →
      osmNextState f true ds elts (.start e :: rest)
          = .panicked "node/way/relation inside another"
      ∧ osmNextState f true ds elts (.empty e :: rest)
          = .panicked "node/way/relation inside another") := by
  constructor
  · intro hc
    constructor <;> (unfold osmNextState; simp [nextLoop, if_pos hc])
  · intro ho
    constructor <;> (unfold osmNextState; simp [nextLoop, if_pos ho])

/-- C7 witness: concrete instances — an `nd` outside any object and a
`way` opening inside an object both abort. -/
theorem c7_fatal_structural_witness :
    childName "nd" = true ∧ objName "way" = true
    ∧ osmNextState Flags.new false false [] [.start ⟨"nd", []⟩]
        = .panicked "nd/tag/member outside of node/way/relation"
    ∧ osmNextState Flags.new true false [⟨"way", []⟩] [.empty ⟨"way", []⟩]
        = .panicked "node/way/relation inside another" :=
  ⟨by decide, by decide,
    ((c7_fatal_structural Flags.new false [] [] ⟨"nd", []⟩).1 (by decide)).1,
    ((c7_fatal_structural Flags.new false [⟨"way", []⟩] [] ⟨"way", []⟩).2 (by decide)).2⟩

/-- C8: delivery of `Eof` (end of the event list) in any assembler state —
mid-object, skipping, or idle, with any buffered elements — makes `_next`
return `Ok(None)` (normal end of sequence, not an error), the partially
buffered object is not emitted, and the drained iterator yields no items. -/
theorem c8_end_of_input (f : Flags) (started ds : Bool) (elts : List BytesStart) :
    nextLoop f started ds elts [] = .eofLeft started ds elts
    ∧ osmNextState f started ds elts [] = .res (.ok none) []
    ∧ osmIter f [] = .finished [] := by
  refine ⟨by simp [nextLoop], ?_, rfl⟩
  unfold osmNextState
  simp [nextLoop]

/-- C10: mismatched children are silently ignored by the builder: an `nd`
child of a non-way object, a `member` child of a non-relation object, and
any child whose name is not `tag`/`nd`/`member`, leave the object being
built exactly unchanged and produce no error, regardless of which
attributes the ignored child has or lacks. -/
theorem c10_mismatched_children (o : OsmObj) (e : BytesStart) :
    (e.name = "nd" → o.kind ≠ .way → processChild o e = .ok o)
    ∧ (e.name = "member" → o.kind ≠ .relation → processChild o e = .ok o)
    ∧ (childName e.name = false → processChild o e = .ok o) := by
  refine ⟨?_, ?_, ?_⟩
  · intro hn hk
    have ht : e.name ≠ "tag" := by rw [hn]; decide
    unfold processChild
    rw [if_neg ht, if_pos hn]
    cases o with
    | way w => exact absurd rfl hk
    | node n => rfl
    | relation r => rfl
  · intro hm hk
    have ht : e.name ≠ "tag" := by rw [hm]; decide
    have hn : e.name ≠ "nd" := by rw [hm]; decide
    unfold processChild
    rw [if_neg ht, if_neg hn, if_pos hm]
    cases o with
    | relation r => exact absurd rfl hk
    | node n => rfl
    | way w => rfl
  · intro hc
    have h1 : e.name ≠ "tag" := fun h => by simp [childName, h] at hc
    have h2 : e.name ≠ "nd" := fun h => by simp [childName, h] at hc
    have h3 : e.name ≠ "member" := fun h => by simp [childName, h] at hc
    unfold processChild
    rw [if_neg h1, if_neg h2, if_neg h3]

/-- C10 witness: a member-like child with no attributes at all inside a
way, an `nd` inside a relation, and an unknown element inside a node, each
leave the object untouched. -/
theorem c10_mismatched_children_witness :
    processChild (.way ⟨OsmElementAttrs.new, [], []⟩) ⟨"member", []⟩
        = .ok (.way ⟨OsmElementAttrs.new, [], []⟩)
    ∧ processChild (.relation ⟨OsmElementAttrs.new, [], []⟩) ⟨"nd", []⟩
        = .ok (.relation ⟨OsmElementAttrs.new, [], []⟩)
    ∧ processChild (.node ⟨OsmElementAttrs.new, 0, 0, []⟩) ⟨"bounds", []⟩
        = .ok (.node ⟨OsmElementAttrs.new, 0, 0, []⟩) :=
  ⟨(c10_mismatched_children (.way ⟨OsmElementAttrs.new, [], []⟩) ⟨"member", []⟩).2.1
      rfl (by decide),
    (c10_mismatched_children (.relation ⟨OsmElementAttrs.new, [], []⟩) ⟨"nd", []⟩).1
      rfl (by decide),
    (c10_mismatched_children (.node ⟨OsmElementAttrs.new, 0, 0, []⟩) ⟨"bounds", []⟩).2.2
      (by decide)⟩

/-- C2: with the skip flag for a kind set, the `_next` loop never hands
`_process_elements` a group opening with that kind's element (so
typing/building never runs for it), any buffer left at end of input never
opens with that kind either and is empty whenever the loop was still in
skipping mode (no child storage is accumulated for a skipped object), and
`_next` never returns an object of that kind. -/
theorem c2_skip_invariant (f : Flags) (k : ObjType)
    (hf : skipFor f (kindName k) = true) (evs : List XmlEvent) :
    (∀ g rest e, nextLoop f false false [] evs = .emit g rest →
        g.head? = some e → e.name ≠ kindName k)
    ∧ (∀ st ds2 left, nextLoop f false false [] evs = .eofLeft st ds2 left →
        (∀ e, left.head? = some e → e.name ≠ kindName k) ∧ (ds2 = true → left = []))
    ∧ (∀ o rest, osmNext f evs = .res (.ok (some o)) rest → o.kind ≠ k) := by
  have hS := nextLoop_skipSafe f k hf evs false false [] (fun _ => rfl) (fun _ => rfl)
    (by intro e he; simp at he)
  refine ⟨?_, ?_, ?_⟩
  · intro g rest e hL he
    rw [hL] at hS
    exact hS e he
  · intro st ds2 left hL
    rw [hL] at hS
    exact hS
  · intro o rest hN hk
    unfold osmNext osmNextState at hN
    cases hL : nextLoop f false false [] evs with
    | panicked m => simp only [hL] at hN; exact absurd hN (by simp)
    | eofLeft st ds2 left => simp only [hL] at hN; simp at hN
    | emit g rest2 =>
      simp only [hL] at hN
      cases hP : processElements g with
      | panicked m => simp only [hP] at hN; exact absurd hN (by simp)
      | res r =>
        simp only [hP] at hN
        injection hN with h1 h2
        subst h1
        cases g with
        | nil => simp [processElements] at hP
        | cons e t =>
          have hkind := processElements_ok_kind hP
          rw [hL] at hS
          exact hS e (by simp) (by rw [hkind, hk])

/-- C2 witness: with `skip_relations` set, a document containing one
relation followed by one way satisfies all three conclusions; the
hypothesis `skipFor f (kindName .relation) = true` holds for the flag state
`⟨false, false, true⟩`. -/
theorem c2_skip_invariant_witness :
    skipFor ⟨false, false, true⟩ (kindName .relation) = true
    ∧ ((∀ g rest e, nextLoop ⟨false, false, true⟩ false false []
          [.start ⟨"relation", []⟩, .empty ⟨"tag", []⟩, .ending "relation",
            .empty ⟨"way", []⟩] = .emit g rest → g.head? = some e →
          e.name ≠ kindName .relation)
      ∧ (∀ st ds2 left, nextLoop ⟨false, false, true⟩ false false []
          [.start ⟨"relation", []⟩, .empty ⟨"tag", []⟩, .ending "relation",
            .empty ⟨"way", []⟩] = .eofLeft st ds2 left →
          (∀ e, left.head? = some e → e.name ≠ kindName .relation)
            ∧ (ds2 = true → left = []))
      ∧ (∀ o rest, osmNext ⟨false, false, true⟩
          [.start ⟨"relation", []⟩, .empty ⟨"tag", []⟩, .ending "relation",
            .empty ⟨"way", []⟩] = .res (.ok (some o)) rest →
          o.kind ≠ .relation)) :=
  ⟨by decide, c2_skip_invariant ⟨false, false, true⟩ .relation (by decide) _⟩

/-- C9: the background pipeline is observation-equivalent to the foreground
iterator: the producer thread sends exactly the foreground item sequence,
in order, through the bounded FIFO channel (capacity `queueCap = 5`), so
whenever a complete pipeline run (any interleaving of sends and receives
that drains both the producer and the channel) delivers `r` to the
consumer, `r` is exactly the sequence the foreground iterator yields. -/
theorem c9_background_equivalence (f : Flags) (evs : List XmlEvent)
    (items r : List OsmXmlItem)
    (hfg : osmIter f evs = .finished items)
    (hrun : ChanRun OsmXmlItem ⟨items, [], []⟩ ⟨[], [], r⟩) :
    osmIter f evs = .finished r := by
  have h := chanRun_inv hrun
  simp only [List.append_nil, List.nil_append] at h
  rw [hfg, h]

/-- The single item transmitted in the C9 witness run. -/
def c9WitnessItem : OsmXmlItem :=
  .ok (.way ⟨{ OsmElementAttrs.new with id := some 2 }, [], []⟩)

/-- C9 witness: one way parsed in the foreground, then transmitted through
the channel by one send and one receive. -/
theorem c9_background_equivalence_witness :
    osmIter Flags.new [.empty ⟨"way", [("id", "2")]⟩] = .finished [c9WitnessItem] := by
  refine c9_background_equivalence Flags.new _ [c9WitnessItem] [c9WitnessItem]
    (by decide) ?_
  refine ChanRun.step (ChanStep.send c9WitnessItem [] [] [] (by decide)) ?_
  refine ChanRun.step (ChanStep.recv c9WitnessItem [] [] []) ?_
  exact ChanRun.refl _

/-- C3: attribute typing — each of the eight common metadata attributes
that is absent yields `none` without error; a present-but-malformed
numeric/boolean value makes the typing layer return a recoverable
`ReadError`; for a node, absence of `lon` yields the error
"node has no longitude" and absence of `lat` (with `lon` present and
well-formed) yields "node has no latitude", the object not being emitted;
in particular a self-closing `<node id="1"/>` yields the
missing-longitude error. -/
theorem c3_attribute_typing :
    (∀ (ah : ParsedAttrs) (a : OsmElementAttrs), osmElementAttrsTryFrom ah = .ok a →
      (hmGet ah "id" = none → a.id = none)
      ∧ (hmGet ah "timestamp" = none → a.timestamp = none)
      ∧ (hmGet ah "uid" = none → a.uid = none)
      ∧ (hmGet ah "user" = none → a.user = none)
      ∧ (hmGet ah "visible" = none → a.visible = none)
      ∧ (hmGet ah "deleted" = none → a.deleted = none)
      ∧ (hmGet ah "version" = none → a.version = none)
      ∧ (hmGet ah "changeset" = none → a.changeset = none))
    ∧ (∀ (ah : ParsedAttrs) (s : String),
        ((hmGet ah "id" = some s ∧ parseI64 s = none)
          ∨ (hmGet ah "uid" = some s ∧ parseI64 s = none)
          ∨ (hmGet ah "changeset" = some s ∧ parseU64 s = none)
          ∨ (hmGet ah "version" = some s ∧ parseU32 s = none)
          ∨ (hmGet ah "visible" = some s ∧ parseBool s = none)
          ∨ (hmGet ah "deleted" = some s ∧ parseBool s = none)) →
        ∃ er, osmElementAttrsTryFrom ah = .error er)
    ∧ (∀ (elt : BytesStart) (cs : List BytesStart) (a : OsmElementAttrs),
        elt.name = "node" → osmElementAttrsTryFrom (attrsHashmap elt) = .ok a →
        hmGet (attrsHashmap elt) "lon" = none →
        processElements (elt :: cs) = .res (.error ⟨"node has no longitude"⟩))
    ∧ (∀ (elt : BytesStart) (cs : List BytesStart) (a : OsmElementAttrs)
          (s : String) (v : Rat),
        elt.name = "node" → osmElementAttrsTryFrom (attrsHashmap elt) = .ok a →
        hmGet (attrsHashmap elt) "lon" = some s → parseF32 s = some v →
        hmGet (attrsHashmap elt) "lat" = none →
        processElements (elt :: cs) = .res (.error ⟨"node has no latitude"⟩))
    ∧ processElements [⟨"node", [("id", "1")]⟩]
        = .res (.error ⟨"node has no longitude"⟩) := by
  refine ⟨?_, ?_, ?_, ?_, by decide⟩
  · intro ah a h
    have hv := tryFrom_ok_inv h
    subst hv
    exact ⟨fun hx => by simp [hx], fun hx => hx, fun hx => by simp [hx],
      fun hx => hx, fun hx => by simp [hx], fun hx => by simp [hx],
      fun hx => by simp [hx], fun hx => by simp [hx]⟩
  · intro ah s hbad
    cases hres : osmElementAttrsTryFrom ah with
    | error er => exact ⟨er, rfl⟩
    | ok a =>
      exfalso
      obtain ⟨pc, pd, pi, pu, pv, ps⟩ := tryFrom_ok_parses hres
      rcases hbad with ⟨hs, hp⟩ | ⟨hs, hp⟩ | ⟨hs, hp⟩ | ⟨hs, hp⟩ | ⟨hs, hp⟩ | ⟨hs, hp⟩
      · have := pi s hs; rw [hp] at this; simp at this
      · have := pu s hs; rw [hp] at this; simp at this
      · have := pc s hs; rw [hp] at this; simp at this
      · have := pv s hs; rw [hp] at this; simp at this
      · have := ps s hs; rw [hp] at this; simp at this
      · have := pd s hs; rw [hp] at this; simp at this
  · intro elt cs a hn hA hl
    exact processElements_node_noLon cs hn hA hl
  · intro elt cs a s v hn hA hl hv hla
    exact processElements_node_noLat cs hn hA hl hv hla

/-- C3 witness: concrete instances — an element with no attributes types to
all-`none` metadata; a malformed `id` is a recoverable error; `<node/>`
with no attributes and `<node lon="1"/>` produce the two distinct
missing-coordinate errors. -/
theorem c3_attribute_typing_witness :
    osmElementAttrsTryFrom (attrsHashmap ⟨"node", []⟩) = .ok OsmElementAttrs.new
    ∧ ({ OsmElementAttrs.new with id := none } : OsmElementAttrs).id = none
    ∧ (∃ er, osmElementAttrsTryFrom [("id", "x")] = .error er)
    ∧ processElements [⟨"node", []⟩, ⟨"tag", []⟩]
        = .res (.error ⟨"node has no longitude"⟩)
    ∧ processElements [⟨"node", [("lon", "1")]⟩]
        = .res (.error ⟨"node has no latitude"⟩)
    ∧ processElements [⟨"node", [("id", "1")]⟩]
        = .res (.error ⟨"node has no longitude"⟩) := by
  refine ⟨by decide, ?_, ?_, ?_, ?_, ?_⟩
  · exact ((c3_attribute_typing.1 (attrsHashmap ⟨"node", []⟩) OsmElementAttrs.new
      (by decide)).1 (by decide)) ▸ rfl
  · exact c3_attribute_typing.2.1 [("id", "x")] "x" (Or.inl ⟨by decide, by decide⟩)
  · exact c3_attribute_typing.2.2.1 ⟨"node", []⟩ [⟨"tag", []⟩] OsmElementAttrs.new
      rfl (by decide) (by decide)
  · exact c3_attribute_typing.2.2.2.1 ⟨"node", [("lon", "1")]⟩ [] OsmElementAttrs.new
      "1" 1 rfl (by decide) (by decide) (by decide) (by decide)
  · exact c3_attribute_typing.2.2.2.2

/-- C4: every emitted way's node-ref list equals, in document order, the
parsed i64 `ref` values of its `nd` children (`ndRef`), duplicates
included and children with an absent `ref` silently omitted; an `nd` child
whose `ref` is present but does not parse as i64 fails the whole object's
build with an error; and an `nd` with no `ref` attribute leaves the way
unchanged without error. -/
theorem c4_way_node_refs :
    (∀ (elt : BytesStart) (cs : List BytesStart) (w : Way),
        processElements (elt :: cs) = .res (.ok (some (.way w))) →
        w.nodes = cs.filterMap ndRef)
    ∧ (∀ (elt c : BytesStart) (cs : List BytesStart) (s : String),
        elt.name = "way" → c ∈ cs → c.name = "nd" →
        hmGet (attrsHashmap c) "ref" = some s → parseI64 s = none →
        ∃ er, processElements (elt :: cs) = .res (.error er))
    ∧ (∀ (w : Way) (c : BytesStart), c.name = "nd" →
        hmGet (attrsHashmap c) "ref" = none →
        processChild (.way w) c = .ok (.way w)) := by
  refine ⟨?_, ?_, ?_⟩
  · intro elt cs w h
    obtain ⟨a, hA, hC⟩ := processElements_ok_way h
    obtain ⟨w2, hw2, hn2⟩ := processChildren_way hC
    injection hw2 with hww
    rw [← hww] at hn2
    simpa using hn2
  · intro elt c cs s hw hc hn hr hp
    rcases hA : osmElementAttrsTryFrom (attrsHashmap elt) with er | a
    · exact ⟨er, processElements_attrs_err cs hA⟩
    · rcases hC : processChildren (.ok (.way ⟨a, [], []⟩)) cs with e2 | o2
      · exact ⟨e2, processElements_way_children_err hw hA hC⟩
      · exact absurd ⟨hn, s, hr, hp⟩ (processChildren_way_bad hC c hc)
  · intro w c hn hr
    have ht : c.name ≠ "tag" := by rw [hn]; decide
    unfold processChild
    rw [if_neg ht, if_pos hn]
    simp only [hr]

/-- C4 witness: a way whose children are `nd ref="1"`, an `nd` with no
`ref`, and `nd ref="2"` emits the node list `[1, 2]`; a way containing
`nd ref="x"` fails its build; an `nd` without `ref` inside a way is a
no-op. -/
theorem c4_way_node_refs_witness :
    (⟨{ OsmElementAttrs.new with id := some 5 }, [1, 2], []⟩ : Way).nodes
      = [⟨"nd", [("ref", "1")]⟩, ⟨"nd", []⟩, ⟨"nd", [("ref", "2")]⟩].filterMap ndRef
    ∧ (∃ er, processElements [⟨"way", []⟩, ⟨"nd", [("ref", "x")]⟩]
        = .res (.error er))
    ∧ processChild (.way ⟨OsmElementAttrs.new, [], []⟩) ⟨"nd", []⟩
        = .ok (.way ⟨OsmElementAttrs.new, [], []⟩) :=
  ⟨c4_way_node_refs.1 ⟨"way", [("id", "5")]⟩
      [⟨"nd", [("ref", "1")]⟩, ⟨"nd", []⟩, ⟨"nd", [("ref", "2")]⟩]
      ⟨{ OsmElementAttrs.new with id := some 5 }, [1, 2], []⟩ (by decide),
    c4_way_node_refs.2.1 ⟨"way", []⟩ ⟨"nd", [("ref", "x")]⟩ [⟨"nd", [("ref", "x")]⟩]
      "x" rfl (by decide) rfl (by decide) (by decide),
    c4_way_node_refs.2.2 ⟨OsmElementAttrs.new, [], []⟩ ⟨"nd", []⟩ rfl (by decide)⟩

/-- C6: for every emitted object, the tag mapping at any key equals the
value of the last matching `<tag>` child in document order (`lastTagValue`,
which only counts `tag` children with both `k` and `v` present); a `tag`
child missing `k` or `v` is skipped without error and without effect. -/
theorem c6_tag_insertion :
    (∀ (elt : BytesStart) (cs : List BytesStart) (o : OsmObj) (key : String),
        processElements (elt :: cs) = .res (.ok (some o)) →
        hmGet o.tags key = lastTagValue cs key)
    ∧ (∀ (o : OsmObj) (c : BytesStart), c.name = "tag" →
        (hmGet (attrsHashmap c) "k" = none ∨ hmGet (attrsHashmap c) "v" = none) →
        processChild o c = .ok o) := by
  constructor
  · intro elt cs o key h
    obtain ⟨a, o0, hA, hI, hC⟩ := processElements_cons_ok h
    obtain ⟨htags, -, -, -⟩ := initObj_ok_inv hI
    have hget := processChildren_get hC key
    rw [htags] at hget
    rw [hget]
    cases hlast : lastTagValue cs key <;> rfl
  · intro o c ht hkv
    unfold processChild
    rw [if_pos ht]
    rcases hkv with hk | hv
    · cases hv2 : hmGet (attrsHashmap c) "v" <;> simp [hk, hv2]
    · cases hk2 : hmGet (attrsHashmap c) "k" <;> simp [hk2, hv]

/-- C6 witness: a way with children `tag k="a" v="1"`, `tag k="a" v="2"`
and a `tag` with `k` but no `v` emits tag value `"2"` for key `"a"`
(last in document order wins, the incomplete tag ignored); an incomplete
tag child is a no-op on a node. -/
theorem c6_tag_insertion_witness :
    hmGet (OsmObj.tags (.way ⟨OsmElementAttrs.new, [], [("a", "2")]⟩)) "a"
      = lastTagValue [⟨"tag", [("k", "a"), ("v", "1")]⟩,
          ⟨"tag", [("k", "a"), ("v", "2")]⟩, ⟨"tag", [("k", "a")]⟩] "a"
    ∧ processChild (.node ⟨OsmElementAttrs.new, 1, 2, []⟩) ⟨"tag", [("k", "a")]⟩
        = .ok (.node ⟨OsmElementAttrs.new, 1, 2, []⟩) :=
  ⟨c6_tag_insertion.1 ⟨"way", []⟩
      [⟨"tag", [("k", "a"), ("v", "1")]⟩, ⟨"tag", [("k", "a"), ("v", "2")]⟩,
        ⟨"tag", [("k", "a")]⟩]
      (.way ⟨OsmElementAttrs.new, [], [("a", "2")]⟩) "a" (by decide),
    c6_tag_insertion.2 (.node ⟨OsmElementAttrs.new, 1, 2, []⟩) ⟨"tag", [("k", "a")]⟩
      rfl (Or.inr (by decide))⟩

/-- C5: member strictness — inside a relation, a `<member>` missing
`type`, `ref` or `role` fails with the distinct named error for the first
missing attribute (checked in the order type, ref, role); a present `type`
that is not exactly `node`/`way`/`relation` fails with the object-type
error, which propagates out of the member parse; any failing member child
fails the whole object's build with exactly that error; and an emitted
relation's member list is, in document order, the successful parses of its
`member` children. -/
theorem c5_member_strictness :
    (∀ hm : ParsedAttrs, hmGet hm "type" = none →
        memberParse hm = .error ⟨"member element has no \x27type\x27 attribute"⟩)
    ∧ (∀ (hm : ParsedAttrs) (ts : String) (mt : ObjType),
        hmGet hm "type" = some ts → objTypeTryFrom ts = .ok mt →
        hmGet hm "ref" = none →
        memberParse hm = .error ⟨"member element has no \x27ref\x27 attribute"⟩)
    ∧ (∀ (hm : ParsedAttrs) (ts : String) (mt : ObjType) (rs : String) (n : Int),
        hmGet hm "type" = some ts → objTypeTryFrom ts = .ok mt →
        hmGet hm "ref" = some rs → parseI64 rs = some n →
        hmGet hm "role" = none →
        memberParse hm = .error ⟨"member element has no \x27role\x27 attribute"⟩)
    ∧ (∀ ts : String, ts ≠ "node" → ts ≠ "way" → ts ≠ "relation" →
        objTypeTryFrom ts = .error ⟨"object type is not node/way/relation"⟩)
    ∧ (∀ (hm : ParsedAttrs) (ts : String) (er : ReadError),
        hmGet hm "type" = some ts → objTypeTryFrom ts = .error er →
        memberParse hm = .error er)
    ∧ (∀ (elt c : BytesStart) (pre post : List BytesStart) (a : OsmElementAttrs)
          (o1 : OsmObj) (er : ReadError),
        elt.name = "relation" →
        osmElementAttrsTryFrom (attrsHashmap elt) = .ok a →
        processChildren (.ok (.relation ⟨a, [], []⟩)) pre = .ok o1 →
        c.name = "member" → memberParse (attrsHashmap c) = .error er →
        processElements (elt :: (pre ++ c :: post)) = .res (.error er))
    ∧ (∀ (elt : BytesStart) (cs : List BytesStart) (r : Relation),
        processElements (elt :: cs) = .res (.ok (some (.relation r))) →
        r.members = cs.filterMap memberVal) := by
  refine ⟨?_, ?_, ?_, ?_, ?_, ?_, ?_⟩
  · intro hm h
    simp [memberParse, h]
  · intro hm ts mt hty hmt href
    simp [memberParse, hty, hmt, href]
  · intro hm ts mt rs n hty hmt href hpn hrole
    simp [memberParse, hty, hmt, href, hpn, hrole]
  · intro ts h1 h2 h3
    unfold objTypeTryFrom
    rw [if_neg h1, if_neg h2, if_neg h3]
  · intro hm ts er hty her
    simp [memberParse, hty, her]
  · intro elt c pre post a o1 er hrel hA hpre hcm hmp
    have hk := processChildren_kind hpre
    cases o1 with
    | node n => simp [OsmObj.kind] at hk
    | way w => simp [OsmObj.kind] at hk
    | relation r1 =>
      have hstep : processChildren (.ok (.relation ⟨a, [], []⟩)) (pre ++ c :: post)
          = .error er := by
        rw [processChildren_append, hpre,
          show processChildren (.ok (.relation r1)) (c :: post)
            = processChildren (processChild (.relation r1) c) post from rfl,
          processChild_relation_member_err hcm hmp, processChildren_error]
      unfold processElements
      simp [hA, hrel, initObj_relation, hstep]
  · intro elt cs r h
    obtain ⟨a, hA, hC⟩ := processElements_ok_relation h
    obtain ⟨r2, hr2, hm2⟩ := processChildren_relation hC
    injection hr2 with hrr
    rw [← hrr] at hm2
    simpa using hm2

/-- C5 witness: the three distinct missing-attribute errors, the
object-type error and its propagation, the whole-build failure on a
member with no attributes, and a successful relation whose member list is
the parse of its single member child. -/
theorem c5_member_strictness_witness :
    memberParse [] = .error ⟨"member element has no \x27type\x27 attribute"⟩
    ∧ memberParse [("type", "way")]
        = .error ⟨"member element has no \x27ref\x27 attribute"⟩
    ∧ memberParse [("type", "way"), ("ref", "5")]
        = .error ⟨"member element has no \x27role\x27 attribute"⟩
    ∧ objTypeTryFrom "street" = .error ⟨"object type is not node/way/relation"⟩
    ∧ memberParse [("type", "street")]
        = .error ⟨"object type is not node/way/relation"⟩
    ∧ processElements [⟨"relation", []⟩, ⟨"member", []⟩]
        = .res (.error ⟨"member element has no \x27type\x27 attribute"⟩)
    ∧ (⟨{ OsmElementAttrs.new with id := some 9 }, [],
          [⟨.way, 5, "outer"⟩]⟩ : Relation).members
        = [⟨"member", [("type", "way"), ("ref", "5"), ("role", "outer")]⟩].filterMap
            memberVal :=
  ⟨c5_member_strictness.1 [] rfl,
    c5_member_strictness.2.1 [("type", "way")] "way" .way rfl rfl rfl,
    c5_member_strictness.2.2.1 [("type", "way"), ("ref", "5")] "way" .way "5" 5
      rfl rfl (by decide) (by decide) (by decide),
    c5_member_strictness.2.2.2.1 "street" (by decide) (by decide) (by decide),
    c5_member_strictness.2.2.2.2.1 [("type", "street")] "street"
      ⟨"object type is not node/way/relation"⟩ rfl (by decide),
    c5_member_strictness.2.2.2.2.2.1 ⟨"relation", []⟩ ⟨"member", []⟩ [] []
      OsmElementAttrs.new (.relation ⟨OsmElementAttrs.new, [], []⟩)
      ⟨"member element has no \x27type\x27 attribute"⟩ rfl (by decide) (by decide)
      rfl (by decide),
    c5_member_strictness.2.2.2.2.2.2 ⟨"relation", [("id", "9")]⟩
      [⟨"member", [("type", "way"), ("ref", "5"), ("role", "outer")]⟩]
      ⟨{ OsmElementAttrs.new with id := some 9 }, [], [⟨.way, 5, "outer"⟩]⟩
      (by decide)⟩
